import Mathlib

/-!
Verification of the zip2json aggregation core (`src/main.rs`).

Rust strings are modelled at the character level as `List Char`; Rust
`HashMap`s are modelled as insertion-ordered association lists; the `i32`
pair codes are modelled as `Int` (the pair count never approaches 2^31).
A Rust panic (out-of-range `Vec` index, out-of-range byte slice) is
modelled as `Option.none`.
-/

namespace ZipToJson

/-- `str::split(',')` from line 103: comma-separated segments; an empty
string yields one empty segment. -/
def splitComma : List Char → List (List Char)
  | [] => [[]]
  | c :: cs =>
    if c = ',' then [] :: splitComma cs
    else
      match splitComma cs with
      | [] => [[c]]
      | l :: ls => (c :: l) :: ls

/-- Extend the first line of an already-split tail with one leading
character (the tail is empty only for an unterminated final line). -/
def consFirst (c : Char) : List (List Char) → List (List Char)
  | [] => [[c]]
  | l :: ls => (c :: l) :: ls

/-- `str::lines()` from line 101: lines are terminated by `\n` or `\r\n`,
the final line needs no terminator, and a trailing terminator adds no
empty line. -/
def rustLines : List Char → List (List Char)
  | [] => []
  | c :: cs =>
    if c = '\n' then [] :: rustLines cs
    else
      match cs with
      | [] => [[c]]
      | c2 :: cs2 =>
        if c = '\r' ∧ c2 = '\n' then [] :: rustLines cs2
        else consFirst c (rustLines (c2 :: cs2))

/-- If `pat` is a leading segment of `s`, return the remainder of `s`. -/
def dropPat : List Char → List Char → Option (List Char)
  | [], s => some s
  | _ :: _, [] => none
  | p :: ps, c :: cs => if c = p then dropPat ps cs else none

/-- Worker for `removeAll`, structurally recursive on a fuel bound.  A
match consumes at least one character (the pattern is nonempty in the
matching branch), so fuel equal to the input length always suffices and
the fuel-exhausted arm is unreachable. -/
def removeAllGo (pat : List Char) : Nat → List Char → List Char
  | _, [] => []
  | 0, s => s
  | fuel + 1, c :: cs =>
    if pat = [] then c :: removeAllGo pat fuel cs
    else
      match dropPat pat (c :: cs) with
      | some rest => removeAllGo pat fuel rest
      | none => c :: removeAllGo pat fuel cs

/-- `str::replace(pat, "")` from lines 130-143: removes every
non-overlapping occurrence of `pat`, scanning left to right. -/
def removeAll (pat s : List Char) : List Char := removeAllGo pat s.length s

/-- Quote stripping from lines 130-135: `replace("\"", "")`. -/
def stripQuotes (s : List Char) : List Char := removeAll ['"'] s

/-- The sentinel town-area value cleared at line 138. -/
def noListingSentinel : List Char := "以下に掲載がない場合".toList

/-- The bracket annotations removed from the town area, in the order the
source applies them (line 141). -/
def townAreaPatterns : List (List Char) :=
  ["（その他）".toList, "（次のビルを除く）".toList, "（地階・階層不明）".toList,
   "（".toList, "）".toList]

/-- Town-area normalization, lines 133-143: strip quotes, clear the
sentinel, then remove each bracket annotation in order. -/
def normalizeTownArea (t : List Char) : List Char :=
  let t1 := stripQuotes t
  let t2 := if t1 = noListingSentinel then [] else t1
  townAreaPatterns.foldl (fun acc pat => removeAll pat acc) t2

/-- `PrefAndMunic` struct, lines 51-55. -/
structure PrefAndMunic where
  pref : List Char
  munic : List Char
deriving DecidableEq, Repr

/-- `OneLowerZipStore` struct, lines 38-42. -/
structure OneLowerZipStore where
  code : Int
  address : List (List (List Char))
deriving DecidableEq, Repr

/-- `OneUpperZipStore` struct, lines 64-68; the two hash maps are modelled
as insertion-ordered association lists. -/
structure OneUpperZipStore where
  pref_and_munics : List (Int × PrefAndMunic)
  address : List (List Char × OneLowerZipStore)
deriving DecidableEq, Repr

/-- `OneUpperZipStore::new`, lines 70-75. -/
def OneUpperZipStore.new : OneUpperZipStore := ⟨[], []⟩

/-- `CSVType` enum, lines 17-20. -/
inductive CSVType where
  | CsvtKenAll
  | CsvtJigyosho
deriving DecidableEq, Repr

/-- The `result` map of `process_csv_files`, keyed by the 3-character
upper zip code. -/
abbrev Dataset := List (List Char × OneUpperZipStore)

/-- `HashMap` lookup on the association-list model. -/
def alistLookup {β : Type} : List (List Char × β) → List Char → Option β
  | [], _ => none
  | (k', v) :: rest, k => if k' = k then some v else alistLookup rest k

/-- In-place overwrite of the value stored under an existing key. -/
def alistUpdate {β : Type} : List (List Char × β) → List Char → β → List (List Char × β)
  | [], _, _ => []
  | (k', v') :: rest, k, v =>
    if k' = k then (k', v) :: rest else (k', v') :: alistUpdate rest k v

/-- Column extraction, lines 109-127: `CsvtKenAll` reads indices 2,6,7,8
(house number and office name empty); `CsvtJigyosho` reads indices
7,3,4,5,6,2.  An out-of-range index panics in the source (`none` here). -/
def readColumns (t : CSVType) (cols : List (List Char)) :
    Option (List Char × List Char × List Char × List Char × List Char × List Char) :=
  match t with
  | .CsvtKenAll => do
    let zip ← cols[2]?
    let pref_ ← cols[6]?
    let munic_ ← cols[7]?
    let town ← cols[8]?
    pure (zip, pref_, munic_, town, [], [])
  | .CsvtJigyosho => do
    let zip ← cols[7]?
    let pref_ ← cols[3]?
    let munic_ ← cols[4]?
    let town ← cols[5]?
    let house ← cols[6]?
    let jig ← cols[2]?
    pure (zip, pref_, munic_, town, house, jig)

/-- The scan of lines 153-162: walk the pair table with a counter that
starts at 1; on the first entry whose two fields equal the candidate's,
stop with that entry's code; otherwise finish with the incremented
counter (= 1 + number of entries walked). -/
def scanPm (cand : PrefAndMunic) : List (Int × PrefAndMunic) → Int → Bool × Int
  | [], pmId => (false, pmId)
  | (code, pm) :: rest, pmId =>
    if pm.pref = cand.pref ∧ pm.munic = cand.munic then (true, code)
    else scanPm cand rest (pmId + 1)

/-- Lines 152-165: resolve a candidate pair against the table, inserting
it under the fresh code when the scan found no match.  Returns the code
to use and the updated table. -/
def resolvePm (pairs : List (Int × PrefAndMunic)) (cand : PrefAndMunic) :
    Int × List (Int × PrefAndMunic) :=
  let scanned := scanPm cand pairs 1
  if scanned.1 then (scanned.2, pairs) else (scanned.2, pairs ++ [(scanned.2, cand)])

/-- Lines 171-175: the per-row address payload. -/
def payloadOf (t : CSVType) (town house jig : List Char) : List (List Char) :=
  match t with
  | .CsvtKenAll => [town]
  | .CsvtJigyosho => [town, house, jig]

/-- Lines 152-176: the per-row update of one upper-zip group — resolve
the pair code, then create or extend the lower-zip entry. -/
def updateGroup (t : CSVType) (g : OneUpperZipStore)
    (pref_ munic_ town house jig lower : List Char) : OneUpperZipStore :=
  let r := resolvePm g.pref_and_munics ⟨pref_, munic_⟩
  let item := payloadOf t town house jig
  let addr' :=
    match alistLookup g.address lower with
    | some e => alistUpdate g.address lower ⟨e.code, e.address ++ [item]⟩
    | none => g.address ++ [(lower, ⟨r.1, [item]⟩)]
  ⟨r.2, addr'⟩

/-- Prefix/suffix split of lines 146-147: `zip_code[..3]` / `zip_code[3..]`. -/
def zipSplit (zip : List Char) : List Char × List Char := (zip.take 3, zip.drop 3)

/-- Lines 101-143: split one line on commas, extract the six fields of
the active layout, strip quotes from each, and normalize the town area.
`none` models the index-out-of-range panic on a short line. -/
def normalizeRow (t : CSVType) (line : List Char) :
    Option (List Char × List Char × List Char × List Char × List Char × List Char) := do
  let (zip, pref_, munic_, town, house, jig) ← readColumns t (splitComma line)
  pure (stripQuotes zip, stripQuotes pref_, stripQuotes munic_,
        normalizeTownArea town, stripQuotes house, stripQuotes jig)

/-- Lines 145-176: split the zip code and fold one normalized row into
the dataset.  `none` models the slice panic on a zip code shorter than 3
characters. -/
def applyRow (t : CSVType) (d : Dataset)
    (fields : List Char × List Char × List Char × List Char × List Char × List Char) :
    Option Dataset :=
  let (zip, pref_, munic_, town, house, jig) := fields
  if zip.length < 3 then none
  else
    let s := zipSplit zip
    match alistLookup d s.1 with
    | some g => some (alistUpdate d s.1 (updateGroup t g pref_ munic_ town house jig s.2))
    | none => some (d ++ [(s.1, updateGroup t OneUpperZipStore.new pref_ munic_ town house jig s.2)])

/-- Lines 101-177: processing of a single CSV line against the dataset. -/
def processLine (t : CSVType) (d : Dataset) (line : List Char) : Option Dataset :=
  (normalizeRow t line).bind (applyRow t d)

/-- Lines 86-101: the shared read buffer accumulates every file read so
far (`read_to_string` appends, the buffer is never cleared), and after
each read the whole buffer is line-split and processed.  This returns the
sequence of lines the row loop visits, in order. -/
def processedLines : List (List Char) → List Char → List (List Char)
  | [], _ => []
  | f :: rest, buf =>
    let buf' := buf ++ f
    rustLines buf' ++ processedLines rest buf'

/-- `process_csv_files`, lines 84-181: fold every visited line into the
dataset; a panic on any visited line aborts the whole call. -/
def processCsvFiles (t : CSVType) (files : List (List Char)) (d : Dataset) : Option Dataset :=
  (processedLines files []).foldlM (fun acc l => processLine t acc l) d

/-- Observable outcome of one `process_csv_files` call: the source's
return type is `GenericResult<()>` (so an error channel exists), but the
body can also abort by panicking. -/
inductive RunOutcome where
  | ok (d : Dataset)
  | err (msg : List Char)
  | panicked
deriving DecidableEq, Repr

def RunOutcome.isOk : RunOutcome → Bool
  | .ok _ => true
  | _ => false

def RunOutcome.isErr : RunOutcome → Bool
  | .err _ => true
  | _ => false

/-- `process_csv_files` as seen by its caller: the body returns `Ok(())`
on completion and never constructs an `Err`; a panic escapes it. -/
def processCsvFilesRun (t : CSVType) (files : List (List Char)) (d : Dataset) : RunOutcome :=
  match processCsvFiles t files d with
  | some d' => .ok d'
  | none => .panicked

/-- `format!("{:03}", n)` for the loop counter of line 387 (always below
1000 there): three zero-padded decimal digits. -/
def fmt3 (n : Nat) : List Char :=
  [Nat.digitChar (n / 100 % 10), Nat.digitChar (n / 10 % 10), Nat.digitChar (n % 10)]

/-- One step of the emission loop observed externally: either a document
is written for the prefix, or the prefix is reported as empty (the
`None` arm prints a blank progress cell, line 413). -/
inductive EmitEvent where
  | written (pfx : List Char) (doc : OneUpperZipStore)
  | reportedEmpty (pfx : List Char)
deriving DecidableEq, Repr

/-- One iteration of the emission loop, lines 390-414: a present prefix
gets its document written, an absent one is reported empty. -/
def emitEventFor (d : Dataset) (n : Nat) : EmitEvent :=
  match alistLookup d (fmt3 n) with
  | some g => EmitEvent.written (fmt3 n) g
  | none => EmitEvent.reportedEmpty (fmt3 n)

/-- Lines 387-418: visit prefixes 1..=999 in ascending numeric order,
writing one document per present prefix and reporting absent ones empty. -/
def emitEvents (d : Dataset) : List EmitEvent :=
  (List.range' 1 999).map (emitEventFor d)

/-- The prefixes for which a document is written, in emission order. -/
def writtenNames (evs : List EmitEvent) : List (List Char) :=
  evs.filterMap (fun e =>
    match e with
    | .written p _ => some p
    | .reportedEmpty _ => none)

/-- The prefix an emission event is about. -/
def eventPfx : EmitEvent → List Char
  | .written p _ => p
  | .reportedEmpty p => p

/-- The number of comma-separated fields a layout needs: `CsvtKenAll`
indexes up to column 8, `CsvtJigyosho` up to column 7. -/
def requiredCols : CSVType → Nat
  | .CsvtKenAll => 9
  | .CsvtJigyosho => 8

/-- An arbitrary interleaving of rows from the two layouts folded into
the dataset, row by row. -/
def processRows (rows : List (CSVType × List Char)) (d : Dataset) : Option Dataset :=
  rows.foldlM (fun acc r => processLine r.1 acc r.2) d

/-- `main` lines 370-384: the full registry is aggregated first, then the
office registry into the same dataset; a failure in either aborts. -/
def aggregateAll (kenFiles jigFiles : List (List Char)) : Option Dataset :=
  match processCsvFiles .CsvtKenAll kenFiles [] with
  | none => none
  | some d => processCsvFiles .CsvtJigyosho jigFiles d

/-- The pair table never holds two entries with the same
(prefecture, municipality) value — a consequence of the equality scan
running before every insertion. -/
def PairsInv (pairs : List (Int × PrefAndMunic)) : Prop :=
  pairs.Pairwise (fun a b => a.2 ≠ b.2)

/-- `PairsInv` for every group of the dataset. -/
def DatasetPairsInv (d : Dataset) : Prop := ∀ pg ∈ d, PairsInv pg.2.pref_and_munics

/-- Every code stored in a group's lower-zip entries is a key of that
group's pair table. -/
def CodeInv (g : OneUpperZipStore) : Prop :=
  ∀ se ∈ g.address, ∃ e ∈ g.pref_and_munics, e.1 = se.2.code

/-- `CodeInv` for every group of the dataset. -/
def DatasetCodeInv (d : Dataset) : Prop := ∀ pg ∈ d, CodeInv pg.2

/-!
The source's pair table is a `HashMap` whose iteration order (line 155)
is unspecified and varies from process run to process run.  A run is
modelled by an oracle that presents, at each row-processing step, the
pair table of the touched group in some order; the only soundness
requirement is that the presented list is a permutation of the table.
-/

/-- The order in which a run's scan loop sees the pair table, step by
step. -/
def ValidOracle (σ : Nat → List (Int × PrefAndMunic) → List (Int × PrefAndMunic)) : Prop :=
  ∀ k l, (σ k l).Perm l

/-- A run's presentation order for one map at serialization time. -/
def ValidReorder {α : Type} (τ : List α → List α) : Prop := ∀ l, (τ l).Perm l

/-- `resolvePm` with the scan walking the table in the order `π`
presents it; the insertion on a miss still appends to the table. -/
def resolvePmO (π : List (Int × PrefAndMunic) → List (Int × PrefAndMunic))
    (pairs : List (Int × PrefAndMunic)) (cand : PrefAndMunic) :
    Int × List (Int × PrefAndMunic) :=
  let scanned := scanPm cand (π pairs) 1
  if scanned.1 then (scanned.2, pairs) else (scanned.2, pairs ++ [(scanned.2, cand)])

/-- `updateGroup` under a scan-order presentation. -/
def updateGroupO (π : List (Int × PrefAndMunic) → List (Int × PrefAndMunic))
    (t : CSVType) (g : OneUpperZipStore)
    (pref_ munic_ town house jig lower : List Char) : OneUpperZipStore :=
  let r := resolvePmO π g.pref_and_munics ⟨pref_, munic_⟩
  let item := payloadOf t town house jig
  let addr' :=
    match alistLookup g.address lower with
    | some e => alistUpdate g.address lower ⟨e.code, e.address ++ [item]⟩
    | none => g.address ++ [(lower, ⟨r.1, [item]⟩)]
  ⟨r.2, addr'⟩

/-- `applyRow` under a scan-order presentation. -/
def applyRowO (π : List (Int × PrefAndMunic) → List (Int × PrefAndMunic))
    (t : CSVType) (d : Dataset)
    (fields : List Char × List Char × List Char × List Char × List Char × List Char) :
    Option Dataset :=
  let (zip, pref_, munic_, town, house, jig) := fields
  if zip.length < 3 then none
  else
    let s := zipSplit zip
    match alistLookup d s.1 with
    | some g => some (alistUpdate d s.1 (updateGroupO π t g pref_ munic_ town house jig s.2))
    | none => some (d ++ [(s.1, updateGroupO π t OneUpperZipStore.new pref_ munic_ town house jig s.2)])

/-- `processLine` under a scan-order presentation. -/
def processLineO (π : List (Int × PrefAndMunic) → List (Int × PrefAndMunic))
    (t : CSVType) (d : Dataset) (line : List Char) : Option Dataset :=
  (normalizeRow t line).bind (applyRowO π t d)

/-- The row loop under a run's oracle, threading the step counter. -/
def processLinesO (σ : Nat → List (Int × PrefAndMunic) → List (Int × PrefAndMunic))
    (t : CSVType) : List (List Char) → Dataset → Nat → Option Dataset
  | [], d, _ => some d
  | l :: rest, d, k =>
    match processLineO (σ k) t d l with
    | some d' => processLinesO σ t rest d' (k + 1)
    | none => none

/-- `process_csv_files` under a run's oracle. -/
def processCsvFilesO (σ : Nat → List (Int × PrefAndMunic) → List (Int × PrefAndMunic))
    (t : CSVType) (files : List (List Char)) (d : Dataset) : Option Dataset :=
  processLinesO σ t (processedLines files []) d 0

/-- The two-registry aggregation of `main` under one run's oracles. -/
def aggregateAllO (σk σj : Nat → List (Int × PrefAndMunic) → List (Int × PrefAndMunic))
    (kenFiles jigFiles : List (List Char)) : Option Dataset :=
  match processCsvFilesO σk .CsvtKenAll kenFiles [] with
  | none => none
  | some d => processCsvFilesO σj .CsvtJigyosho jigFiles d

/-!
Byte-level output: `serde_json::to_writer_pretty` (line 402) with the
default pretty formatter — two-space indentation, `Serialize` fields in
declaration order renamed to PascalCase, map entries in the map's
iteration order, integer map keys serialized as quoted strings.
-/

/-- JSON string escaping as `serde_json` performs it. -/
def jsonEscapeChar (c : Char) : List Char :=
  if c = '"' then ['\\', '"']
  else if c = '\\' then ['\\', '\\']
  else if c = '\x08' then ['\\', 'b']
  else if c = '\x0c' then ['\\', 'f']
  else if c = '\n' then ['\\', 'n']
  else if c = '\r' then ['\\', 'r']
  else if c = '\t' then ['\\', 't']
  else if c.toNat < 32 then
    ['\\', 'u', '0', '0', Nat.digitChar (c.toNat / 16), Nat.digitChar (c.toNat % 16)]
  else [c]

/-- A JSON string literal. -/
def jsonString (s : List Char) : List Char :=
  '"' :: (s.flatMap jsonEscapeChar ++ ['"'])

/-- Worker for `natDec`, structurally recursive on a fuel bound that
always suffices (a number has at most as many digits as its value). -/
def natDecGo : Nat → Nat → List Char
  | 0, n => [Nat.digitChar (n % 10)]
  | fuel + 1, n =>
    if n < 10 then [Nat.digitChar n]
    else natDecGo fuel (n / 10) ++ [Nat.digitChar (n % 10)]

/-- Decimal digits of a natural number. -/
def natDec (n : Nat) : List Char := natDecGo n n

/-- Decimal rendering of an `i32` value. -/
def intDec (i : Int) : List Char :=
  if i < 0 then '-' :: natDec i.natAbs else natDec i.toNat

/-- A newline followed by the pretty-printer's indentation. -/
def nlIndent (depth : Nat) : List Char :=
  '\n' :: List.replicate (2 * depth) ' '

/-- A pretty-printed JSON object at nesting depth `depth`, from
already-rendered field values. -/
def renderObj (fields : List (List Char × List Char)) (depth : Nat) : List Char :=
  match fields with
  | [] => ['\x7b', '\x7d']
  | _ =>
    '\x7b' ::
      (List.intercalate [','] (fields.map (fun f =>
        nlIndent (depth + 1) ++ jsonString f.1 ++ [':', ' '] ++ f.2)) ++
       (nlIndent depth ++ ['\x7d']))

/-- A pretty-printed JSON array at nesting depth `depth`, from
already-rendered elements. -/
def renderArr (elems : List (List Char)) (depth : Nat) : List Char :=
  match elems with
  | [] => ['[', ']']
  | _ =>
    '[' ::
      (List.intercalate [','] (elems.map (fun e => nlIndent (depth + 1) ++ e)) ++
       (nlIndent depth ++ [']']))

/-- One `PrefAndMunic` value as serde serializes it. -/
def renderPm (pm : PrefAndMunic) (depth : Nat) : List Char :=
  renderObj [("Pref".toList, jsonString pm.pref), ("Munic".toList, jsonString pm.munic)] depth

/-- One `OneLowerZipStore` value as serde serializes it. -/
def renderLower (e : OneLowerZipStore) (depth : Nat) : List Char :=
  renderObj
    [("Code".toList, intDec e.code),
     ("Address".toList,
      renderArr (e.address.map (fun item => renderArr (item.map jsonString) (depth + 2)))
        (depth + 1))]
    depth

/-- One `OneUpperZipStore` document, its two maps presented in the given
orders. -/
def renderStore (pairsOrdered : List (Int × PrefAndMunic))
    (addrOrdered : List (List Char × OneLowerZipStore)) : List Char :=
  renderObj
    [("PrefAndMunics".toList,
      renderObj (pairsOrdered.map (fun p => (intDec p.1, renderPm p.2 2))) 1),
     ("Address".toList,
      renderObj (addrOrdered.map (fun a => (a.1, renderLower a.2 2))) 1)]
    0

/-- The file name of the document for a prefix, line 393. -/
def jsonFileName (pfx : List Char) : List Char := pfx ++ ".json".toList

/-- The (file name, bytes) sequence the emission loop writes, the two
maps of each document presented in the orders `τp` / `τa`. -/
def emitDocsBytes (τp : List (Int × PrefAndMunic) → List (Int × PrefAndMunic))
    (τa : List (List Char × OneLowerZipStore) → List (List Char × OneLowerZipStore))
    (d : Dataset) : List (List Char × List Char) :=
  (List.range' 1 999).filterMap (fun n =>
    match alistLookup d (fmt3 n) with
    | some g => some (jsonFileName (fmt3 n), renderStore (τp g.pref_and_munics) (τa g.address))
    | none => none)

/-- One complete program run on the given input files: aggregate both
registries under the run's scan-order oracles, then emit every document
under the run's serialization orders. -/
def runProgramBytes (σk σj : Nat → List (Int × PrefAndMunic) → List (Int × PrefAndMunic))
    (τp : List (Int × PrefAndMunic) → List (Int × PrefAndMunic))
    (τa : List (List Char × OneLowerZipStore) → List (List Char × OneLowerZipStore))
    (kenFiles jigFiles : List (List Char)) : Option (List (List Char × List Char)) :=
  match aggregateAllO σk σj kenFiles jigFiles with
  | some d => some (emitDocsBytes τp τa d)
  | none => none

/-- Numeric value of a three-digit prefix string. -/
def toNat3 (s : List Char) : Nat :=
  match s with
  | [a, b, c] => 100 * (a.toNat - 48) + 10 * (b.toNat - 48) + (c.toNat - 48)
  | _ => 0

instance (pairs : List (Int × PrefAndMunic)) : Decidable (PairsInv pairs) := by
  unfold PairsInv
  infer_instance

instance (d : Dataset) : Decidable (DatasetPairsInv d) := by
  unfold DatasetPairsInv PairsInv
  infer_instance

instance (d : Dataset) : Decidable (DatasetCodeInv d) := by
  unfold DatasetCodeInv CodeInv
  infer_instance

/-! ### Association-list lemmas -/

theorem alistLookup_mem {β : Type} :
    ∀ (l : List (List Char × β)) (k : List Char) (v : β),
      alistLookup l k = some v → (k, v) ∈ l := by
  intro l
  induction l with
  | nil => intro k v h; simp [alistLookup] at h
  | cons x rest ih =>
    intro k v h
    obtain ⟨k', v'⟩ := x
    simp only [alistLookup] at h
    by_cases hk : k' = k
    · rw [if_pos hk] at h
      injection h with h2
      subst h2
      subst hk
      exact List.mem_cons_self _ _
    · simp only [if_neg hk] at h
      exact List.mem_cons_of_mem _ (ih k v h)

theorem alistLookup_update_self {β : Type} :
    ∀ (l : List (List Char × β)) (k : List Char) (v w : β),
      alistLookup l k = some w → alistLookup (alistUpdate l k v) k = some v := by
  intro l
  induction l with
  | nil => intro k v w h; simp [alistLookup] at h
  | cons x rest ih =>
    intro k v w h
    obtain ⟨k', v'⟩ := x
    simp only [alistLookup] at h
    by_cases hk : k' = k
    · simp [alistUpdate, alistLookup, hk]
    · simp only [if_neg hk] at h
      simp [alistUpdate, alistLookup, hk, ih k v w h]

theorem mem_alistUpdate {β : Type} :
    ∀ (l : List (List Char × β)) (k : List Char) (v : β) (x : List Char × β),
      x ∈ alistUpdate l k v → x ∈ l ∨ x = (k, v) := by
  intro l
  induction l with
  | nil => intro k v x h; simp [alistUpdate] at h
  | cons y rest ih =>
    intro k v x h
    obtain ⟨k', v'⟩ := y
    simp only [alistUpdate] at h
    by_cases hk : k' = k
    · rw [if_pos hk] at h
      rcases List.mem_cons.mp h with h1 | h1
      · right; rw [h1, hk]
      · left; exact List.mem_cons_of_mem _ h1
    · rw [if_neg hk] at h
      rcases List.mem_cons.mp h with h1 | h1
      · left; rw [h1]; exact List.mem_cons_self _ _
      · rcases ih k v x h1 with h2 | h2
        · left; exact List.mem_cons_of_mem _ h2
        · right; exact h2

theorem alistLookup_append_self {β : Type} :
    ∀ (l : List (List Char × β)) (k : List Char) (v : β),
      alistLookup l k = none → alistLookup (l ++ [(k, v)]) k = some v := by
  intro l
  induction l with
  | nil => intro k v _; simp [alistLookup]
  | cons x rest ih =>
    intro k v h
    obtain ⟨k', v'⟩ := x
    simp only [alistLookup] at h
    by_cases hk : k' = k
    · simp [hk] at h
    · simp only [List.cons_append, alistLookup, if_neg hk]
      exact ih k v (by simpa [if_neg hk] using h)

theorem alistLookup_isSome_update {β : Type}
    (l : List (List Char × β)) (k : List Char) (v : β) (w : β)
    (h : alistLookup l k = some w) : (alistLookup (alistUpdate l k v) k).isSome := by
  rw [alistLookup_update_self l k v w h]
  rfl

/-! ### Scan / allocator lemmas -/

theorem pm_fields_eq_iff (pm cand : PrefAndMunic) :
    (pm.pref = cand.pref ∧ pm.munic = cand.munic) ↔ pm = cand := by
  cases pm
  cases cand
  simp

theorem scanPm_not_found (cand : PrefAndMunic) :
    ∀ (l : List (Int × PrefAndMunic)) (k : Int),
      (∀ e ∈ l, e.2 ≠ cand) → scanPm cand l k = (false, k + l.length) := by
  intro l
  induction l with
  | nil => intro k _; simp [scanPm]
  | cons x rest ih =>
    intro k h
    obtain ⟨code, pm⟩ := x
    have hx : pm ≠ cand := h (code, pm) (List.mem_cons_self _ _)
    have hcond : ¬(pm.pref = cand.pref ∧ pm.munic = cand.munic) := by
      rw [pm_fields_eq_iff]; exact hx
    simp only [scanPm, if_neg hcond]
    rw [ih (k + 1) (fun e he => h e (List.mem_cons_of_mem _ he))]
    simp [List.length_cons]
    omega

theorem scanPm_found_unique (cand : PrefAndMunic) :
    ∀ (l : List (Int × PrefAndMunic)) (k : Int) (x : Int × PrefAndMunic),
      x ∈ l → x.2 = cand → PairsInv l → scanPm cand l k = (true, x.1) := by
  intro l
  induction l with
  | nil => intro k x hx; simp at hx
  | cons y rest ih =>
    intro k x hx hxc hinv
    obtain ⟨code, pm⟩ := y
    rcases List.pairwise_cons.mp hinv with ⟨hhead, htail⟩
    by_cases hcond : pm.pref = cand.pref ∧ pm.munic = cand.munic
    · have hpm : pm = cand := (pm_fields_eq_iff pm cand).mp hcond
      have hx_eq : x = (code, pm) := by
        rcases List.mem_cons.mp hx with h1 | h1
        · exact h1
        · exfalso
          exact hhead x h1 (by rw [hxc, hpm])
      simp [scanPm, if_pos hcond, hx_eq]
    · have hx_tail : x ∈ rest := by
        rcases List.mem_cons.mp hx with h1 | h1
        · exfalso
          apply hcond
          rw [pm_fields_eq_iff]
          have : pm = x.2 := by rw [h1]
          rw [this, hxc]
        · exact h1
      simp only [scanPm, if_neg hcond]
      exact ih (k + 1) x hx_tail hxc htail

theorem scanPm_true_mem (cand : PrefAndMunic) :
    ∀ (l : List (Int × PrefAndMunic)) (k : Int) (c : Int),
      scanPm cand l k = (true, c) → (c, cand) ∈ l := by
  intro l
  induction l with
  | nil => intro k c h; simp [scanPm] at h
  | cons y rest ih =>
    intro k c h
    obtain ⟨code, pm⟩ := y
    by_cases hcond : pm.pref = cand.pref ∧ pm.munic = cand.munic
    · simp only [scanPm, if_pos hcond, Prod.mk.injEq] at h
      have hpm : pm = cand := (pm_fields_eq_iff pm cand).mp hcond
      rw [← h.2, ← hpm]
      exact List.mem_cons_self _ _
    · simp only [scanPm, if_neg hcond] at h
      exact List.mem_cons_of_mem _ (ih (k + 1) c h)

theorem scanPm_false_not_mem (cand : PrefAndMunic) :
    ∀ (l : List (Int × PrefAndMunic)) (k : Int) (j : Int),
      scanPm cand l k = (false, j) → ∀ e ∈ l, e.2 ≠ cand := by
  intro l
  induction l with
  | nil => intro k j _ e he; simp at he
  | cons y rest ih =>
    intro k j h e he
    obtain ⟨code, pm⟩ := y
    by_cases hcond : pm.pref = cand.pref ∧ pm.munic = cand.munic
    · simp [scanPm, if_pos hcond] at h
    · simp only [scanPm, if_neg hcond] at h
      rcases List.mem_cons.mp he with h1 | h1
      · intro hc
        apply hcond
        rw [pm_fields_eq_iff]
        have : pm = e.2 := by rw [h1]
        rw [this, hc]
      · exact ih (k + 1) j h e h1

/-- C1: the Code Allocator returns the stored code on an exact
(prefecture, municipality) match and leaves the table unchanged;
otherwise it allocates `count + 1` and appends the candidate under that
code.  (Helper form of the claim, also used below.) -/
theorem resolvePm_spec (pairs : List (Int × PrefAndMunic)) (cand : PrefAndMunic) :
    (∀ (c : Int) (pm : PrefAndMunic), PairsInv pairs → (c, pm) ∈ pairs → pm = cand →
      resolvePm pairs cand = (c, pairs)) ∧
    ((∀ e ∈ pairs, e.2 ≠ cand) →
      resolvePm pairs cand = ((pairs.length : Int) + 1,
        pairs ++ [((pairs.length : Int) + 1, cand)])) := by
  constructor
  · intro c pm hinv hmem hpm
    have hs := scanPm_found_unique cand pairs 1 (c, pm) hmem hpm hinv
    simp [resolvePm, hs]
  · intro hnone
    have hs := scanPm_not_found cand pairs 1 hnone
    have h1 : (1 : Int) + (pairs.length : Int) = (pairs.length : Int) + 1 := by omega
    simp [resolvePm, hs, h1]

/-- C1: for every prefix group's pair table satisfying the no-duplicate
invariant, the allocator returns the code of an already-present pair
whose two fields both equal the candidate's, without changing the table;
when no pair matches, it returns `(number of pairs) + 1` and inserts the
candidate under that code. -/
theorem C1_code_allocator (pairs1 pairs2 : List (Int × PrefAndMunic)) (cand : PrefAndMunic)
    (c : Int) (pm : PrefAndMunic)
    (h1 : PairsInv pairs1) (hmem : (c, pm) ∈ pairs1) (hpm : pm = cand)
    (h2 : ∀ e ∈ pairs2, e.2 ≠ cand) :
    resolvePm pairs1 cand = (c, pairs1) ∧
    resolvePm pairs2 cand = ((pairs2.length : Int) + 1,
      pairs2 ++ [((pairs2.length : Int) + 1, cand)]) :=
  ⟨(resolvePm_spec pairs1 cand).1 c pm h1 hmem hpm, (resolvePm_spec pairs2 cand).2 h2⟩

/-- Witness for C1 at a concrete table: a matching pair resolves to its
stored code 1, and a fresh candidate against the empty table allocates
code 0 + 1 and inserts it. -/
theorem C1_code_allocator_witness :
    PairsInv [((1 : Int), PrefAndMunic.mk "東京都".toList "渋谷区".toList)] ∧
    resolvePm [((1 : Int), PrefAndMunic.mk "東京都".toList "渋谷区".toList)]
        (PrefAndMunic.mk "東京都".toList "渋谷区".toList)
      = (1, [((1 : Int), PrefAndMunic.mk "東京都".toList "渋谷区".toList)]) ∧
    resolvePm [] (PrefAndMunic.mk "東京都".toList "渋谷区".toList)
      = ((([] : List (Int × PrefAndMunic)).length : Int) + 1,
         [] ++ [((([] : List (Int × PrefAndMunic)).length : Int) + 1,
                 PrefAndMunic.mk "東京都".toList "渋谷区".toList)]) := by
  refine ⟨by decide, ?_⟩
  exact C1_code_allocator
    [((1 : Int), PrefAndMunic.mk "東京都".toList "渋谷区".toList)] []
    (PrefAndMunic.mk "東京都".toList "渋谷区".toList)
    1 (PrefAndMunic.mk "東京都".toList "渋谷区".toList)
    (by decide) (by decide) rfl (by decide)

/-- C2: within a prefix group, a row whose suffix already has a
`SuffixEntry` leaves that entry's `code` untouched — whatever pair-code
the row resolves to — while its payload is still appended to the entry's
items; a row that creates the entry sets `code` to the pair-code it
resolved. -/
theorem C2_first_write_wins (t : CSVType) (g1 g2 : OneUpperZipStore)
    (pref_ munic_ town house jig lower : List Char) (e : OneLowerZipStore)
    (h1 : alistLookup g1.address lower = some e)
    (h2 : alistLookup g2.address lower = none) :
    alistLookup (updateGroup t g1 pref_ munic_ town house jig lower).address lower
      = some ⟨e.code, e.address ++ [payloadOf t town house jig]⟩ ∧
    alistLookup (updateGroup t g2 pref_ munic_ town house jig lower).address lower
      = some ⟨(resolvePm g2.pref_and_munics ⟨pref_, munic_⟩).1,
              [payloadOf t town house jig]⟩ := by
  constructor
  · simp only [updateGroup, h1]
    exact alistLookup_update_self g1.address lower _ e h1
  · simp only [updateGroup, h2]
    exact alistLookup_append_self g2.address lower _ h2

/-- Witness for C2: the suffix `0001` was created with code 1; a later
office-registry row resolving to a different pair leaves the code at 1
and appends its payload; on a fresh group, creation stores the resolved
code. -/
theorem C2_first_write_wins_witness :
    alistLookup (OneUpperZipStore.mk [((1 : Int), PrefAndMunic.mk "東京都".toList "渋谷区".toList)]
        [("0001".toList, OneLowerZipStore.mk 1 [["代々木".toList]])]).address "0001".toList
      = some (OneLowerZipStore.mk 1 [["代々木".toList]]) ∧
    alistLookup (OneUpperZipStore.mk [] []).address "0001".toList = none ∧
    alistLookup (updateGroup CSVType.CsvtJigyosho
        (OneUpperZipStore.mk [((1 : Int), PrefAndMunic.mk "東京都".toList "渋谷区".toList)]
          [("0001".toList, OneLowerZipStore.mk 1 [["代々木".toList]])])
        "東京都".toList "港区".toList "芝".toList "1".toList "会社".toList
        "0001".toList).address "0001".toList
      = some (OneLowerZipStore.mk 1
          [["代々木".toList],
           ["芝".toList, "1".toList, "会社".toList]]) ∧
    alistLookup (updateGroup CSVType.CsvtJigyosho (OneUpperZipStore.mk [] [])
        "東京都".toList "港区".toList "芝".toList "1".toList "会社".toList
        "0001".toList).address "0001".toList
      = some (OneLowerZipStore.mk
          (resolvePm ([] : List (Int × PrefAndMunic))
            (PrefAndMunic.mk "東京都".toList "港区".toList)).1
          [["芝".toList, "1".toList, "会社".toList]]) := by
  refine ⟨by decide, by decide, ?_, ?_⟩
  · exact (C2_first_write_wins CSVType.CsvtJigyosho
      (OneUpperZipStore.mk [((1 : Int), PrefAndMunic.mk "東京都".toList "渋谷区".toList)]
        [("0001".toList, OneLowerZipStore.mk 1 [["代々木".toList]])])
      (OneUpperZipStore.mk [] [])
      "東京都".toList "港区".toList "芝".toList "1".toList "会社".toList "0001".toList
      (OneLowerZipStore.mk 1 [["代々木".toList]]) (by decide) (by decide)).1
  · exact (C2_first_write_wins CSVType.CsvtJigyosho
      (OneUpperZipStore.mk [((1 : Int), PrefAndMunic.mk "東京都".toList "渋谷区".toList)]
        [("0001".toList, OneLowerZipStore.mk 1 [["代々木".toList]])])
      (OneUpperZipStore.mk [] [])
      "東京都".toList "港区".toList "芝".toList "1".toList "会社".toList "0001".toList
      (OneLowerZipStore.mk 1 [["代々木".toList]]) (by decide) (by decide)).2

/-- C8: for a postal code of at least 3 characters, the grouping split
yields the first 3 characters as prefix and the remainder as suffix;
`1500001` splits into `150` / `0001`. -/
theorem C8_zip_split (zip : List Char) (h : 3 ≤ zip.length) :
    (zipSplit zip).1.length = 3 ∧ (zipSplit zip).1 ++ (zipSplit zip).2 = zip ∧
    zipSplit "1500001".toList = ("150".toList, "0001".toList) := by
  refine ⟨?_, ?_, by decide⟩
  · simp only [zipSplit, List.length_take]
    omega
  · simp [zipSplit]

/-- Witness for C8 at the spec's own example. -/
theorem C8_zip_split_witness :
    3 ≤ "1500001".toList.length ∧
    ((zipSplit "1500001".toList).1.length = 3 ∧
     (zipSplit "1500001".toList).1 ++ (zipSplit "1500001".toList).2 = "1500001".toList ∧
     zipSplit "1500001".toList = ("150".toList, "0001".toList)) :=
  ⟨by decide, C8_zip_split "1500001".toList (by decide)⟩

/-! ### Normalization lemmas -/

theorem removeAllGo_single (c : Char) :
    ∀ (fuel : Nat) (s : List Char), s.length ≤ fuel →
      removeAllGo [c] fuel s = s.filter (fun x => x ≠ c) := by
  intro fuel
  induction fuel with
  | zero =>
    intro s h
    have hs : s = [] := List.length_eq_zero.mp (Nat.le_zero.mp h)
    subst hs
    simp [removeAllGo]
  | succ f ih =>
    intro s h
    cases s with
    | nil => simp [removeAllGo]
    | cons x xs =>
      have hlen : xs.length ≤ f := by
        simp only [List.length_cons] at h
        omega
      by_cases hx : x = c
      · subst hx
        simp [removeAllGo, dropPat, ih xs hlen, List.filter_cons]
      · simp [removeAllGo, dropPat, hx, ih xs hlen, List.filter_cons]

theorem removeAll_single (c : Char) (s : List Char) :
    removeAll [c] s = s.filter (fun x => x ≠ c) :=
  removeAllGo_single c s.length s (Nat.le_refl _)

/-- C7: field normalization removes every double quote from a field
(leaving all other characters in order), clears the sentinel town area
(with or without surrounding quotes) to the empty string, and leaves no
opening or closing fullwidth bracket — hence no bracket annotation — in
the normalized town area; the spec's own example normalizes as stated. -/
theorem C7_normalization :
    (∀ s, stripQuotes s = s.filter (fun ch => ch ≠ '"')) ∧
    normalizeTownArea noListingSentinel = [] ∧
    normalizeTownArea ('"' :: (noListingSentinel ++ ['"'])) = [] ∧
    (∀ s, '（' ∉ normalizeTownArea s ∧ '）' ∉ normalizeTownArea s) ∧
    normalizeTownArea "渋谷区（その他）".toList = "渋谷区".toList := by
  refine ⟨fun s => removeAll_single '"' s, by decide, by decide, ?_, by decide⟩
  intro s
  have e4 : "（".toList = ['（'] := by decide
  have e5 : "）".toList = ['）'] := by decide
  constructor
  · intro hmem
    simp only [normalizeTownArea, townAreaPatterns, List.foldl, e4, e5,
      removeAll_single, List.mem_filter] at hmem
    simp at hmem
  · intro hmem
    simp only [normalizeTownArea, townAreaPatterns, List.foldl, e4, e5,
      removeAll_single, List.mem_filter] at hmem
    simp at hmem

/-! ### Malformed-row behavior -/

theorem readColumns_short_kenAll (cols : List (List Char)) (h : cols.length < 9) :
    readColumns CSVType.CsvtKenAll cols = none := by
  have h8 : cols[8]? = none := List.getElem?_eq_none (by omega)
  simp only [readColumns]
  cases h2 : cols[2]? with
  | none => simp [h2]
  | some z =>
    cases h6 : cols[6]? with
    | none => simp [h2, h6]
    | some p =>
      cases h7 : cols[7]? with
      | none => simp [h2, h6, h7]
      | some m => simp [h2, h6, h7, h8]

theorem readColumns_short_jigyosho (cols : List (List Char)) (h : cols.length < 8) :
    readColumns CSVType.CsvtJigyosho cols = none := by
  have h7 : cols[7]? = none := List.getElem?_eq_none (by omega)
  simp [readColumns, h7]

theorem processLine_malformed (t : CSVType) (d : Dataset) (line : List Char)
    (h : (splitComma line).length < requiredCols t) : processLine t d line = none := by
  cases t with
  | CsvtKenAll =>
    have hr := readColumns_short_kenAll (splitComma line)
      (by simpa [requiredCols] using h)
    simp [processLine, normalizeRow, hr]
  | CsvtJigyosho =>
    have hr := readColumns_short_jigyosho (splitComma line)
      (by simpa [requiredCols] using h)
    simp [processLine, normalizeRow, hr]

theorem foldlM_none {α β : Type} (f : β → α → Option β) :
    ∀ (l : List α) (x : α) (b : β), x ∈ l → (∀ acc, f acc x = none) →
      l.foldlM f b = none := by
  intro l
  induction l with
  | nil => intro x b hx _; simp at hx
  | cons y ys ih =>
    intro x b hx hf
    rcases List.mem_cons.mp hx with h1 | h1
    · subst h1
      simp [List.foldlM_cons, hf b]
    · cases hy : f b y with
      | none => simp [List.foldlM_cons, hy]
      | some b' =>
        simp only [List.foldlM_cons, hy, Option.some_bind]
        exact ih x b' h1 hf

/-- C6 (amended): a line with fewer comma-separated fields than the
active layout requires (9 for the full layout, 8 for the office layout)
makes its row processing panic, and any `process_csv_files` call whose
visited lines include such a line aborts as a panic — the row is not
skipped, and no error value is returned through the function's
`GenericResult` channel. -/
theorem C6_short_line_aborts (t : CSVType) (d : Dataset) (files : List (List Char))
    (line : List Char) (hmem : line ∈ processedLines files [])
    (hshort : (splitComma line).length < requiredCols t) :
    processLine t d line = none ∧
    processCsvFilesRun t files d = RunOutcome.panicked := by
  refine ⟨processLine_malformed t d line hshort, ?_⟩
  unfold processCsvFilesRun processCsvFiles
  rw [foldlM_none _ (processedLines files []) line d hmem
    (fun acc => processLine_malformed t acc line hshort)]

/-- Witness for C6 (amended) at a concrete two-field line. -/
theorem C6_short_line_aborts_witness :
    ("a,b".toList ∈ processedLines ["a,b\n".toList] [] ∧
     (splitComma "a,b".toList).length < requiredCols CSVType.CsvtKenAll) ∧
    (processLine CSVType.CsvtKenAll [] "a,b".toList = none ∧
     processCsvFilesRun CSVType.CsvtKenAll ["a,b\n".toList] [] = RunOutcome.panicked) :=
  ⟨⟨by decide, by decide⟩,
   C6_short_line_aborts CSVType.CsvtKenAll [] ["a,b\n".toList] "a,b".toList
     (by decide) (by decide)⟩

/-- C6 counterexample: on a registry whose file holds a two-field line,
`process_csv_files` neither reports an error to its caller nor completes
with the row skipped — it aborts by panicking, so the claimed
`MalformedRow` error is never produced. -/
theorem C6_short_line_counterexample :
    (processCsvFilesRun CSVType.CsvtKenAll ["a,b\n".toList] []).isErr = false ∧
    (processCsvFilesRun CSVType.CsvtKenAll ["a,b\n".toList] []).isOk = false ∧
    processCsvFilesRun CSVType.CsvtKenAll ["a,b\n".toList] [] = RunOutcome.panicked := by
  decide

/-! ### The code-referential invariant (C4) -/

theorem resolvePm_mono (pairs : List (Int × PrefAndMunic)) (cand : PrefAndMunic)
    (e : Int × PrefAndMunic) (he : e ∈ pairs) : e ∈ (resolvePm pairs cand).2 := by
  simp only [resolvePm]
  split
  · exact he
  · exact List.mem_append_left _ he

theorem resolvePm_code_mem (pairs : List (Int × PrefAndMunic)) (cand : PrefAndMunic) :
    ∃ e ∈ (resolvePm pairs cand).2, e.1 = (resolvePm pairs cand).1 := by
  simp only [resolvePm]
  cases hs : scanPm cand pairs 1 with
  | mk found code =>
    cases found with
    | true =>
      refine ⟨(code, cand), ?_, rfl⟩
      simpa using scanPm_true_mem cand pairs 1 code hs
    | false =>
      exact ⟨(code, cand), by simp, rfl⟩

theorem updateGroup_codeInv (t : CSVType) (g : OneUpperZipStore)
    (pref_ munic_ town house jig lower : List Char)
    (hg : CodeInv g) : CodeInv (updateGroup t g pref_ munic_ town house jig lower) := by
  intro se hse
  simp only [updateGroup] at hse ⊢
  have hmono := resolvePm_mono g.pref_and_munics ⟨pref_, munic_⟩
  cases hl : alistLookup g.address lower with
  | some e =>
    rw [hl] at hse
    rcases mem_alistUpdate g.address lower _ se hse with hold | hnew
    · obtain ⟨e', he', hc⟩ := hg se hold
      exact ⟨e', hmono e' he', hc⟩
    · obtain ⟨e', he', hc⟩ := hg (lower, e) (alistLookup_mem g.address lower e hl)
      refine ⟨e', hmono e' he', ?_⟩
      rw [hnew]
      exact hc
  | none =>
    rw [hl] at hse
    rcases List.mem_append.mp hse with hold | hnew
    · obtain ⟨e', he', hc⟩ := hg se hold
      exact ⟨e', hmono e' he', hc⟩
    · obtain ⟨e', he', hc⟩ := resolvePm_code_mem g.pref_and_munics ⟨pref_, munic_⟩
      refine ⟨e', he', ?_⟩
      rw [List.mem_singleton.mp hnew]
      exact hc

theorem codeInv_new : CodeInv OneUpperZipStore.new := by
  intro se hse
  simp [OneUpperZipStore.new] at hse

theorem applyRow_codeInv (t : CSVType) (d : Dataset)
    (fields : List Char × List Char × List Char × List Char × List Char × List Char)
    (d' : Dataset) (hd : DatasetCodeInv d) (h : applyRow t d fields = some d') :
    DatasetCodeInv d' := by
  obtain ⟨zip, pref_, munic_, town, house, jig⟩ := fields
  simp only [applyRow] at h
  split at h
  · exact absurd h (by simp)
  · cases hl : alistLookup d (zipSplit zip).1 with
    | some g =>
      rw [hl] at h
      injection h with h
      subst h
      intro pg hpg
      rcases mem_alistUpdate d _ _ pg hpg with hold | hnew
      · exact hd pg hold
      · rw [hnew]
        exact updateGroup_codeInv t g _ _ _ _ _ _
          (hd ((zipSplit zip).1, g) (alistLookup_mem d _ g hl))
    | none =>
      rw [hl] at h
      injection h with h
      subst h
      intro pg hpg
      rcases List.mem_append.mp hpg with hold | hnew
      · exact hd pg hold
      · rw [List.mem_singleton.mp hnew]
        exact updateGroup_codeInv t OneUpperZipStore.new _ _ _ _ _ _ codeInv_new

theorem processLine_codeInv (t : CSVType) (d : Dataset) (line : List Char) (d' : Dataset)
    (hd : DatasetCodeInv d) (h : processLine t d line = some d') : DatasetCodeInv d' := by
  simp only [processLine] at h
  cases hn : normalizeRow t line with
  | none => rw [hn] at h; simp at h
  | some fields =>
    rw [hn] at h
    simp only [Option.some_bind] at h
    exact applyRow_codeInv t d fields d' hd h

theorem foldlM_preserve {α β : Type} (P : β → Prop) (f : β → α → Option β)
    (hf : ∀ b x b', P b → f b x = some b' → P b') :
    ∀ (l : List α) (b b' : β), P b → l.foldlM f b = some b' → P b' := by
  intro l
  induction l with
  | nil =>
    intro b b' hb h
    simp only [List.foldlM_nil] at h
    injection h with h
    rwa [← h]
  | cons y ys ih =>
    intro b b' hb h
    simp only [List.foldlM_cons] at h
    cases hy : f b y with
    | none => rw [hy] at h; simp at h
    | some b1 =>
      rw [hy] at h
      simp at h
      exact ih b1 b' (hf b y b1 hb hy) h

/-- C4: every per-row processing step preserves the invariant that each
code stored in a group's suffix entries is a key of that group's pair
table, and any sequence of rows (either layout, any interleaving)
processed from the empty dataset yields a dataset satisfying it. -/
theorem C4_code_invariant (t : CSVType) (d : Dataset) (line : List Char) (d' : Dataset)
    (rows : List (CSVType × List Char)) (d2 : Dataset)
    (h1 : DatasetCodeInv d) (h2 : processLine t d line = some d')
    (h3 : processRows rows [] = some d2) :
    DatasetCodeInv d' ∧ DatasetCodeInv d2 := by
  refine ⟨processLine_codeInv t d line d' h1 h2, ?_⟩
  refine foldlM_preserve DatasetCodeInv _ ?_ rows [] d2 ?_ h3
  · intro b x b' hb hx
    exact processLine_codeInv x.1 b x.2 b' hb hx
  · intro pg hpg
    simp at hpg

/-- Witness for C4 at a concrete full-registry row. -/
theorem C4_code_invariant_witness :
    (DatasetCodeInv [] ∧
     processLine CSVType.CsvtKenAll []
       "a,b,1500001,d,e,f,Tokyo,Shibuya,TownA".toList
       = some ((processLine CSVType.CsvtKenAll []
           "a,b,1500001,d,e,f,Tokyo,Shibuya,TownA".toList).getD []) ∧
     processRows [(CSVType.CsvtKenAll, "a,b,1500001,d,e,f,Tokyo,Shibuya,TownA".toList)] []
       = some ((processRows
           [(CSVType.CsvtKenAll, "a,b,1500001,d,e,f,Tokyo,Shibuya,TownA".toList)] []).getD [])) ∧
    (DatasetCodeInv ((processLine CSVType.CsvtKenAll []
        "a,b,1500001,d,e,f,Tokyo,Shibuya,TownA".toList).getD []) ∧
     DatasetCodeInv ((processRows
        [(CSVType.CsvtKenAll, "a,b,1500001,d,e,f,Tokyo,Shibuya,TownA".toList)] []).getD [])) :=
  ⟨⟨by decide, by decide, by decide⟩,
   C4_code_invariant CSVType.CsvtKenAll []
     "a,b,1500001,d,e,f,Tokyo,Shibuya,TownA".toList _
     [(CSVType.CsvtKenAll, "a,b,1500001,d,e,f,Tokyo,Shibuya,TownA".toList)] _
     (by decide) (by decide) (by decide)⟩

/-! ### Scan-order independence and the pair-table invariant (C5) -/

theorem pairsInv_symm : Symmetric (fun a b : Int × PrefAndMunic => a.2 ≠ b.2) :=
  fun _ _ h hb => h hb.symm

theorem scanPm_perm (cand : PrefAndMunic) (l l' : List (Int × PrefAndMunic)) (k : Int)
    (hperm : l'.Perm l) (hinv : PairsInv l) : scanPm cand l' k = scanPm cand l k := by
  by_cases hex : ∃ x ∈ l, x.2 = cand
  · obtain ⟨x, hx, hxc⟩ := hex
    have hinv' : PairsInv l' :=
      (hperm.pairwise_iff (fun hab hba => hab hba.symm)).mpr hinv
    rw [scanPm_found_unique cand l k x hx hxc hinv,
        scanPm_found_unique cand l' k x (hperm.mem_iff.mpr hx) hxc hinv']
  · push_neg at hex
    rw [scanPm_not_found cand l k hex,
        scanPm_not_found cand l' k (fun e he => hex e (hperm.mem_iff.mp he)),
        hperm.length_eq]

theorem resolvePmO_eq (π : List (Int × PrefAndMunic) → List (Int × PrefAndMunic))
    (pairs : List (Int × PrefAndMunic)) (cand : PrefAndMunic)
    (hπ : (π pairs).Perm pairs) (hinv : PairsInv pairs) :
    resolvePmO π pairs cand = resolvePm pairs cand := by
  simp only [resolvePmO, resolvePm, scanPm_perm cand pairs (π pairs) 1 hπ hinv]

theorem updateGroupO_eq (π : List (Int × PrefAndMunic) → List (Int × PrefAndMunic))
    (t : CSVType) (g : OneUpperZipStore) (pref_ munic_ town house jig lower : List Char)
    (hπ : (π g.pref_and_munics).Perm g.pref_and_munics)
    (hinv : PairsInv g.pref_and_munics) :
    updateGroupO π t g pref_ munic_ town house jig lower
      = updateGroup t g pref_ munic_ town house jig lower := by
  simp only [updateGroupO, updateGroup, resolvePmO_eq π g.pref_and_munics _ hπ hinv]

theorem pairsInv_new : PairsInv OneUpperZipStore.new.pref_and_munics := by
  simp [OneUpperZipStore.new, PairsInv]

theorem applyRowO_eq (π : List (Int × PrefAndMunic) → List (Int × PrefAndMunic))
    (t : CSVType) (d : Dataset)
    (fields : List Char × List Char × List Char × List Char × List Char × List Char)
    (hπ : ∀ l, (π l).Perm l) (hd : DatasetPairsInv d) :
    applyRowO π t d fields = applyRow t d fields := by
  obtain ⟨zip, pref_, munic_, town, house, jig⟩ := fields
  simp only [applyRowO, applyRow]
  split
  · rfl
  · cases hl : alistLookup d (zipSplit zip).1 with
    | some g =>
      show some (alistUpdate d (zipSplit zip).1
          (updateGroupO π t g pref_ munic_ town house jig (zipSplit zip).2))
        = some (alistUpdate d (zipSplit zip).1
          (updateGroup t g pref_ munic_ town house jig (zipSplit zip).2))
      rw [updateGroupO_eq π t g _ _ _ _ _ _ (hπ _)
        (hd ((zipSplit zip).1, g) (alistLookup_mem d _ g hl))]
    | none =>
      show some (d ++ [((zipSplit zip).1,
          updateGroupO π t OneUpperZipStore.new pref_ munic_ town house jig (zipSplit zip).2)])
        = some (d ++ [((zipSplit zip).1,
          updateGroup t OneUpperZipStore.new pref_ munic_ town house jig (zipSplit zip).2)])
      rw [updateGroupO_eq π t OneUpperZipStore.new _ _ _ _ _ _ (hπ _) pairsInv_new]

theorem processLineO_eq (π : List (Int × PrefAndMunic) → List (Int × PrefAndMunic))
    (t : CSVType) (d : Dataset) (line : List Char)
    (hπ : ∀ l, (π l).Perm l) (hd : DatasetPairsInv d) :
    processLineO π t d line = processLine t d line := by
  simp only [processLineO, processLine]
  cases hn : normalizeRow t line with
  | none => rfl
  | some fields =>
    simp only [Option.some_bind]
    exact applyRowO_eq π t d fields hπ hd

theorem resolvePm_pairsInv (pairs : List (Int × PrefAndMunic)) (cand : PrefAndMunic)
    (hinv : PairsInv pairs) : PairsInv (resolvePm pairs cand).2 := by
  simp only [resolvePm]
  cases hs : scanPm cand pairs 1 with
  | mk found code =>
    cases found with
    | true =>
      rw [if_pos rfl]
      exact hinv
    | false =>
      rw [if_neg (by simp)]
      show PairsInv (pairs ++ [(code, cand)])
      simp only [PairsInv, List.pairwise_append]
      refine ⟨hinv, List.pairwise_singleton _ _, ?_⟩
      intro a ha b hb
      rw [List.mem_singleton.mp hb]
      exact scanPm_false_not_mem cand pairs 1 code hs a ha

theorem updateGroup_pairsInv (t : CSVType) (g : OneUpperZipStore)
    (pref_ munic_ town house jig lower : List Char)
    (hinv : PairsInv g.pref_and_munics) :
    PairsInv (updateGroup t g pref_ munic_ town house jig lower).pref_and_munics := by
  simp only [updateGroup]
  exact resolvePm_pairsInv g.pref_and_munics _ hinv

theorem applyRow_pairsInv (t : CSVType) (d : Dataset)
    (fields : List Char × List Char × List Char × List Char × List Char × List Char)
    (d' : Dataset) (hd : DatasetPairsInv d) (h : applyRow t d fields = some d') :
    DatasetPairsInv d' := by
  obtain ⟨zip, pref_, munic_, town, house, jig⟩ := fields
  simp only [applyRow] at h
  split at h
  · exact absurd h (by simp)
  · cases hl : alistLookup d (zipSplit zip).1 with
    | some g =>
      rw [hl] at h
      injection h with h
      subst h
      intro pg hpg
      rcases mem_alistUpdate d _ _ pg hpg with hold | hnew
      · exact hd pg hold
      · rw [hnew]
        exact updateGroup_pairsInv t g _ _ _ _ _ _
          (hd ((zipSplit zip).1, g) (alistLookup_mem d _ g hl))
    | none =>
      rw [hl] at h
      injection h with h
      subst h
      intro pg hpg
      rcases List.mem_append.mp hpg with hold | hnew
      · exact hd pg hold
      · rw [List.mem_singleton.mp hnew]
        exact updateGroup_pairsInv t OneUpperZipStore.new _ _ _ _ _ _ pairsInv_new

theorem processLine_pairsInv (t : CSVType) (d : Dataset) (line : List Char) (d' : Dataset)
    (hd : DatasetPairsInv d) (h : processLine t d line = some d') : DatasetPairsInv d' := by
  simp only [processLine] at h
  cases hn : normalizeRow t line with
  | none => rw [hn] at h; simp at h
  | some fields =>
    rw [hn] at h
    simp only [Option.some_bind] at h
    exact applyRow_pairsInv t d fields d' hd h

theorem processLinesO_eq (σ : Nat → List (Int × PrefAndMunic) → List (Int × PrefAndMunic))
    (hσ : ValidOracle σ) (t : CSVType) :
    ∀ (ls : List (List Char)) (d : Dataset) (k : Nat), DatasetPairsInv d →
      processLinesO σ t ls d k = ls.foldlM (fun acc l => processLine t acc l) d := by
  intro ls
  induction ls with
  | nil => intro d k _; simp [processLinesO]
  | cons l rest ih =>
    intro d k hd
    simp only [processLinesO, List.foldlM_cons]
    rw [processLineO_eq (σ k) t d l (hσ k) hd]
    cases hp : processLine t d l with
    | none => simp
    | some d' =>
      simp only [Option.bind_eq_bind, Option.some_bind]
      exact ih d' (k + 1) (processLine_pairsInv t d l d' hd hp)

theorem processCsvFiles_pairsInv (t : CSVType) (files : List (List Char)) (d d' : Dataset)
    (hd : DatasetPairsInv d) (h : processCsvFiles t files d = some d') :
    DatasetPairsInv d' := by
  refine foldlM_preserve DatasetPairsInv _ ?_ (processedLines files []) d d' hd h
  intro b x b' hb hx
  exact processLine_pairsInv t b x b' hb hx

theorem processCsvFilesO_eq (σ : Nat → List (Int × PrefAndMunic) → List (Int × PrefAndMunic))
    (hσ : ValidOracle σ) (t : CSVType) (files : List (List Char)) (d : Dataset)
    (hd : DatasetPairsInv d) :
    processCsvFilesO σ t files d = processCsvFiles t files d :=
  processLinesO_eq σ hσ t (processedLines files []) d 0 hd

theorem datasetPairsInv_nil : DatasetPairsInv [] := by
  intro pg hpg
  simp at hpg

theorem aggregateAllO_eq (σk σj : Nat → List (Int × PrefAndMunic) → List (Int × PrefAndMunic))
    (hk : ValidOracle σk) (hj : ValidOracle σj) (ken jig : List (List Char)) :
    aggregateAllO σk σj ken jig = aggregateAll ken jig := by
  unfold aggregateAllO aggregateAll
  rw [processCsvFilesO_eq σk hk _ ken [] datasetPairsInv_nil]
  cases hd : processCsvFiles .CsvtKenAll ken [] with
  | none => rfl
  | some d =>
    show processCsvFilesO σj .CsvtJigyosho jig d = processCsvFiles .CsvtJigyosho jig d
    exact processCsvFilesO_eq σj hj _ jig d
      (processCsvFiles_pairsInv _ ken [] d datasetPairsInv_nil hd)

/-- C5 (amended): given identical input files, any two runs — whatever
hash-map iteration orders their scan loops see — build the identical
dataset and drive the emission loop through the identical event
sequence: same numeric prefix order, same `items` arrays, same pair-code
assignment.  (Byte-identity of the documents can still fail; see the
counterexample.) -/
theorem C5_determinism_amended
    (σ1 σ2 σ3 σ4 : Nat → List (Int × PrefAndMunic) → List (Int × PrefAndMunic))
    (h1 : ValidOracle σ1) (h2 : ValidOracle σ2)
    (h3 : ValidOracle σ3) (h4 : ValidOracle σ4)
    (ken jig : List (List Char)) :
    aggregateAllO σ1 σ2 ken jig = aggregateAllO σ3 σ4 ken jig ∧
    (aggregateAllO σ1 σ2 ken jig).map emitEvents
      = (aggregateAllO σ3 σ4 ken jig).map emitEvents := by
  have e1 := aggregateAllO_eq σ1 σ2 h1 h2 ken jig
  have e2 := aggregateAllO_eq σ3 σ4 h3 h4 ken jig
  rw [e1, e2]
  exact ⟨rfl, rfl⟩

/-- Witness for C5 (amended): the identity presentation and the
reversed presentation are both valid iteration orders, and two runs
under them agree on a concrete input. -/
theorem C5_determinism_amended_witness :
    (ValidOracle (fun _ l => l) ∧ ValidOracle (fun _ l => l.reverse)) ∧
    (aggregateAllO (fun _ l => l) (fun _ l => l)
       ["a,b,1500001,d,e,f,Tokyo,Shibuya,TownA\n".toList] []
     = aggregateAllO (fun _ l => l.reverse) (fun _ l => l.reverse)
       ["a,b,1500001,d,e,f,Tokyo,Shibuya,TownA\n".toList] [] ∧
     (aggregateAllO (fun _ l => l) (fun _ l => l)
        ["a,b,1500001,d,e,f,Tokyo,Shibuya,TownA\n".toList] []).map emitEvents
     = (aggregateAllO (fun _ l => l.reverse) (fun _ l => l.reverse)
        ["a,b,1500001,d,e,f,Tokyo,Shibuya,TownA\n".toList] []).map emitEvents) :=
  ⟨⟨fun _ l => List.Perm.refl l, fun _ l => List.reverse_perm l⟩,
   C5_determinism_amended (fun _ l => l) (fun _ l => l)
     (fun _ l => l.reverse) (fun _ l => l.reverse)
     (fun _ l => List.Perm.refl l) (fun _ l => List.Perm.refl l)
     (fun _ l => List.reverse_perm l) (fun _ l => List.reverse_perm l)
     ["a,b,1500001,d,e,f,Tokyo,Shibuya,TownA\n".toList] []⟩

/-- C5 counterexample: two runs on identical input files, both using
legitimate hash-map iteration orders, write different bytes for
`150.json` — serde serializes each map in its iteration order, so the
two-pair table prints its keys in a different order — refuting
byte-identical output. -/
theorem C5_determinism_counterexample :
    runProgramBytes (fun _ l => l) (fun _ l => l) (fun l => l) (fun l => l)
      ["a,b,1500001,d,e,f,Tokyo,Shibuya,TownA\na,b,1500002,d,e,f,Tokyo,Minato,TownB\n".toList]
      []
    ≠ runProgramBytes (fun _ l => l) (fun _ l => l) List.reverse (fun l => l)
      ["a,b,1500001,d,e,f,Tokyo,Shibuya,TownA\na,b,1500002,d,e,f,Tokyo,Minato,TownB\n".toList]
      [] ∧
    ValidOracle (fun _ l => l) ∧
    ValidReorder (fun l : List (Int × PrefAndMunic) => l) ∧
    ValidReorder (List.reverse (α := Int × PrefAndMunic)) ∧
    ValidReorder (fun l : List (List Char × OneLowerZipStore) => l) :=
  ⟨by decide, fun _ l => List.Perm.refl l, fun l => List.Perm.refl l,
   fun l => List.reverse_perm l, fun l => List.Perm.refl l⟩

/-! ### Buffer accumulation across files (C3) -/

theorem consFirst_ne_nil (c : Char) (xs : List (List Char)) : consFirst c xs ≠ [] := by
  cases xs <;> simp [consFirst]

theorem consFirst_append (c : Char) (xs ys : List (List Char)) (h : xs ≠ []) :
    consFirst c (xs ++ ys) = consFirst c xs ++ ys := by
  cases xs with
  | nil => exact absurd rfl h
  | cons l ls => simp [consFirst]

theorem rustLines_nl_cons (cs : List Char) : rustLines ('\n' :: cs) = [] :: rustLines cs := by
  cases cs with
  | nil => rw [rustLines.eq_2, if_pos rfl]
  | cons a b => rw [rustLines.eq_3, if_pos rfl]

theorem rustLines_crlf (cs : List Char) :
    rustLines ('\r' :: '\n' :: cs) = [] :: rustLines cs := by
  rw [rustLines.eq_3, if_neg (by decide), if_pos ⟨rfl, rfl⟩]

theorem rustLines_single (c : Char) (h : ¬c = '\n') : rustLines [c] = [[c]] := by
  rw [rustLines.eq_2, if_neg h]

theorem rustLines_other (c c2 : Char) (cs2 : List Char) (h1 : ¬c = '\n')
    (h2 : ¬(c = '\r' ∧ c2 = '\n')) :
    rustLines (c :: c2 :: cs2) = consFirst c (rustLines (c2 :: cs2)) := by
  rw [rustLines.eq_3, if_neg h1, if_neg h2]

theorem rustLines_cons_ne_nil (c : Char) (cs : List Char) : rustLines (c :: cs) ≠ [] := by
  cases cs with
  | nil =>
    rw [rustLines.eq_2]
    split <;> simp
  | cons c2 cs2 =>
    rw [rustLines.eq_3]
    split
    · simp
    · split
      · simp
      · exact consFirst_ne_nil _ _

theorem rustLines_append :
    ∀ (s t : List Char), s.getLast? = some '\n' →
      rustLines (s ++ t) = rustLines s ++ rustLines t := by
  intro s
  induction s using rustLines.induct with
  | case1 =>
    intro t h
    simp at h
  | case2 cs2 ih =>
    intro t h
    cases cs2 with
    | nil =>
      simp [rustLines_nl_cons, rustLines.eq_1]
    | cons a b =>
      have h' : (a :: b).getLast? = some '\n' := by
        rwa [List.getLast?_cons_cons] at h
      have ih' := ih t h'
      rw [List.cons_append] at ih'
      simp only [List.cons_append, rustLines_nl_cons]
      rw [ih']
  | case3 c2 hne =>
    intro t h
    rw [List.getLast?_singleton] at h
    exact absurd (Option.some.inj h) hne
  | case4 c2 hne c2_1 cs2 hcond ih =>
    intro t h
    obtain ⟨hr, hn⟩ := hcond
    subst hr
    subst hn
    cases cs2 with
    | nil =>
      simp [rustLines_crlf, rustLines.eq_1]
    | cons a b =>
      have h' : (a :: b).getLast? = some '\n' := by
        rw [List.getLast?_cons_cons, List.getLast?_cons_cons] at h
        exact h
      have ih' := ih t h'
      rw [List.cons_append] at ih'
      simp only [List.cons_append, rustLines_crlf]
      rw [ih']
  | case5 c2 hne c2_1 cs2 hcond ih =>
    intro t h
    have h' : (c2_1 :: cs2).getLast? = some '\n' := by
      rwa [List.getLast?_cons_cons] at h
    have hne2 : rustLines (c2_1 :: cs2) ≠ [] := rustLines_cons_ne_nil c2_1 cs2
    simp only [List.cons_append]
    rw [rustLines_other c2 c2_1 (cs2 ++ t) hne hcond,
        rustLines_other c2 c2_1 cs2 hne hcond]
    have ih' := ih t h'
    rw [List.cons_append] at ih'
    rw [ih']
    exact consFirst_append c2 _ _ hne2

theorem processedLines_formula :
    ∀ (files : List (List Char)) (buf : List Char),
      (∀ f ∈ files, f.getLast? = some '\n') →
      (buf = [] ∨ buf.getLast? = some '\n') →
      processedLines files buf =
        ((List.range files.length).map (fun j =>
          rustLines buf ++ ((files.take (j + 1)).map rustLines).flatten)).flatten := by
  intro files
  induction files with
  | nil => intro buf _ _; simp [processedLines]
  | cons f rest ih =>
    intro buf hf hbuf
    have hfnl : f.getLast? = some '\n' := hf f (List.mem_cons_self _ _)
    have hfne : f ≠ [] := by
      intro hh
      rw [hh] at hfnl
      simp at hfnl
    have hsplit : rustLines (buf ++ f) = rustLines buf ++ rustLines f := by
      rcases hbuf with hh | hh
      · rw [hh]
        simp [rustLines.eq_1]
      · exact rustLines_append buf f hh
    have hbuf' : (buf ++ f) = [] ∨ (buf ++ f).getLast? = some '\n' := by
      right
      rw [List.getLast?_append_of_ne_nil buf hfne]
      exact hfnl
    simp only [processedLines]
    rw [ih (buf ++ f) (fun g hg => hf g (List.mem_cons_of_mem _ hg)) hbuf', hsplit]
    simp only [List.length_cons]
    rw [List.range_succ_eq_map]
    simp [List.map_map, Function.comp_def, Nat.succ_eq_add_one, List.take_succ_cons,
      List.flatten_cons, List.append_assoc]

theorem count_flatten {α : Type} [BEq α] (a : α) :
    ∀ (L : List (List α)), L.flatten.count a = (L.map (fun l => l.count a)).sum := by
  intro L
  induction L with
  | nil => simp
  | cons x xs ih => simp [List.flatten_cons, List.count_append, ih]

theorem map_range_sum (f : Nat → Nat) :
    ∀ n, ((List.range n).map f).sum = ∑ i in Finset.range n, f i := by
  intro n
  induction n with
  | zero => simp
  | succ m ih =>
    rw [List.range_succ, List.map_append, List.sum_append, ih, Finset.sum_range_succ]
    simp

theorem take_map_sum (g : List Char → Nat) :
    ∀ (files : List (List Char)) (m : Nat), m ≤ files.length →
      ((files.take m).map g).sum = ∑ i in Finset.range m, g (files.getD i []) := by
  intro files
  induction files with
  | nil =>
    intro m hm
    have hz : m = 0 := Nat.le_zero.mp (by simpa using hm)
    subst hz
    simp
  | cons f fs ih =>
    intro m hm
    cases m with
    | zero => simp
    | succ k =>
      rw [List.take_succ_cons, List.map_cons, List.sum_cons, Finset.sum_range_succ']
      simp only [List.getD_cons_succ, List.getD_cons_zero]
      rw [ih k (by simpa using hm)]
      omega

theorem sum_passes (a : Nat → Nat) :
    ∀ n, (∑ j in Finset.range n, ∑ i in Finset.range (j + 1), a i)
      = ∑ i in Finset.range n, (n - i) * a i := by
  intro n
  induction n with
  | zero => simp
  | succ m ih =>
    rw [Finset.sum_range_succ, ih]
    conv_rhs => rw [Finset.sum_range_succ]
    have hcong : ∀ i ∈ Finset.range m, (m + 1 - i) * a i = (m - i) * a i + a i := by
      intro i hi
      have hlt : i < m := Finset.mem_range.mp hi
      have h1 : m + 1 - i = (m - i) + 1 := by omega
      rw [h1, Nat.succ_mul]
    rw [Finset.sum_congr rfl hcong, Finset.sum_add_distrib]
    conv_lhs => rw [Finset.sum_range_succ a]
    have h2 : m + 1 - m = 1 := by omega
    rw [h2, one_mul]
    omega

/-- C3: the shared read buffer is never cleared between the files of one
registry, so pass `j` of the line loop processes the lines of files
`0..j` concatenated; consequently, with `n` newline-terminated files,
any given line occurring in the file at 0-based index `i` is processed
`n - i` (that is, `n - (i+1) + 1` for 1-based `i`) times per occurrence,
duplicating the payloads it contributes. -/
theorem C3_buffer_accumulation (files : List (List Char)) (l : List Char)
    (h : ∀ f ∈ files, f.getLast? = some '\n') :
    processedLines files [] =
      ((List.range files.length).map (fun j =>
        ((files.take (j + 1)).map rustLines).flatten)).flatten ∧
    (processedLines files []).count l =
      ∑ i in Finset.range files.length,
        (files.length - i) * ((rustLines (files.getD i [])).count l) := by
  have h0 := processedLines_formula files [] h (Or.inl rfl)
  have h0' : processedLines files [] =
      ((List.range files.length).map (fun j =>
        ((files.take (j + 1)).map rustLines).flatten)).flatten := by
    rw [h0]
    simp [rustLines.eq_1]
  refine ⟨h0', ?_⟩
  rw [h0', count_flatten, List.map_map]
  simp only [Function.comp_def]
  rw [map_range_sum (fun j => ((files.take (j + 1)).map rustLines).flatten.count l)]
  have hstep : ∀ j ∈ Finset.range files.length,
      ((files.take (j + 1)).map rustLines).flatten.count l
        = ∑ i in Finset.range (j + 1), (rustLines (files.getD i [])).count l := by
    intro j hj
    rw [count_flatten, List.map_map]
    exact take_map_sum (fun f => (rustLines f).count l) files (j + 1)
      (by have := Finset.mem_range.mp hj; omega)
  rw [Finset.sum_congr rfl hstep,
    sum_passes (fun i => (rustLines (files.getD i [])).count l)]

/-- Witness for C3 with two one-line files: the first file's line is
processed twice, the second's once. -/
theorem C3_buffer_accumulation_witness :
    (∀ f ∈ [("x\n".toList : List Char), "y\n".toList], f.getLast? = some '\n') ∧
    (processedLines ["x\n".toList, "y\n".toList] [] =
      ((List.range ([("x\n".toList : List Char), "y\n".toList]).length).map (fun j =>
        ((([("x\n".toList : List Char), "y\n".toList]).take (j + 1)).map
          rustLines).flatten)).flatten ∧
     (processedLines ["x\n".toList, "y\n".toList] []).count "x".toList =
      ∑ i in Finset.range ([("x\n".toList : List Char), "y\n".toList]).length,
        (([("x\n".toList : List Char), "y\n".toList]).length - i) *
          ((rustLines (([("x\n".toList : List Char), "y\n".toList]).getD i [])).count
            "x".toList)) :=
  ⟨by decide, C3_buffer_accumulation ["x\n".toList, "y\n".toList] "x".toList (by decide)⟩

/-! ### Emission order and coverage (C9, C10) -/

theorem digitChar_toNat : ∀ d : Nat, d < 10 → (Nat.digitChar d).toNat = 48 + d := by
  decide

theorem toNat3_fmt3 (n : Nat) (h : n < 1000) : toNat3 (fmt3 n) = n := by
  have h1 : n / 100 % 10 < 10 := Nat.mod_lt _ (by omega)
  have h2 : n / 10 % 10 < 10 := Nat.mod_lt _ (by omega)
  have h3 : n % 10 < 10 := Nat.mod_lt _ (by omega)
  simp only [fmt3, toNat3]
  rw [digitChar_toNat _ h1, digitChar_toNat _ h2, digitChar_toNat _ h3]
  omega

theorem writtenNames_map_eventFor (d : Dataset) :
    ∀ L : List Nat,
      writtenNames (L.map (emitEventFor d))
        = (L.filter (fun n => (alistLookup d (fmt3 n)).isSome)).map fmt3 := by
  intro L
  induction L with
  | nil => rfl
  | cons x xs ih =>
    simp only [writtenNames] at ih ⊢
    simp only [List.map_cons, List.filterMap_cons, List.filter_cons]
    cases hx : alistLookup d (fmt3 x) with
    | some g => simp [emitEventFor, hx, ih]
    | none => simp [emitEventFor, hx, ih]

theorem writtenNames_emitEvents (d : Dataset) :
    writtenNames (emitEvents d)
      = ((List.range' 1 999).filter (fun n => (alistLookup d (fmt3 n)).isSome)).map fmt3 :=
  writtenNames_map_eventFor d (List.range' 1 999)

theorem emitDocsBytes_names (d : Dataset)
    (τp : List (Int × PrefAndMunic) → List (Int × PrefAndMunic))
    (τa : List (List Char × OneLowerZipStore) → List (List Char × OneLowerZipStore)) :
    (emitDocsBytes τp τa d).map Prod.fst
      = (writtenNames (emitEvents d)).map jsonFileName := by
  unfold emitDocsBytes emitEvents
  rw [writtenNames_map_eventFor d]
  generalize List.range' 1 999 = L
  induction L with
  | nil => rfl
  | cons x xs ih =>
    simp only [List.filterMap_cons, List.filter_cons]
    cases hx : alistLookup d (fmt3 x) with
    | some g => simp [hx, ih]
    | none => simp [hx, ih]

/-- C9: the emission loop visits prefixes 001 through 999 in ascending
numeric order; the written prefixes are exactly the present ones among
them, each exactly once (the name list is duplicate-free), named
`<prefix>.json`; at most 999 documents result, in an order determined
only by which prefixes are present; an absent prefix produces a
reported-empty event and no document. -/
theorem C9_emission (d : Dataset)
    (τp : List (Int × PrefAndMunic) → List (Int × PrefAndMunic))
    (τa : List (List Char × OneLowerZipStore) → List (List Char × OneLowerZipStore)) :
    writtenNames (emitEvents d)
      = ((List.range' 1 999).filter (fun n => (alistLookup d (fmt3 n)).isSome)).map fmt3 ∧
    (emitDocsBytes τp τa d).map Prod.fst
      = (writtenNames (emitEvents d)).map jsonFileName ∧
    (writtenNames (emitEvents d)).Nodup ∧
    (writtenNames (emitEvents d)).length ≤ 999 ∧
    (writtenNames (emitEvents d)).Pairwise (fun p q => toNat3 p < toNat3 q) ∧
    (∀ n, n ∈ List.range' 1 999 → alistLookup d (fmt3 n) = none →
      EmitEvent.reportedEmpty (fmt3 n) ∈ emitEvents d ∧
      fmt3 n ∉ writtenNames (emitEvents d)) := by
  have hform := writtenNames_emitEvents d
  have hsorted : (writtenNames (emitEvents d)).Pairwise (fun p q => toNat3 p < toNat3 q) := by
    rw [hform]
    rw [List.pairwise_map]
    have hbase : ((List.range' 1 999).filter
        (fun n => (alistLookup d (fmt3 n)).isSome)).Pairwise (· < ·) :=
      (List.pairwise_lt_range' 1 999).filter _
    refine hbase.imp_of_mem ?_
    intro a b ha hb hab
    have ha' := List.mem_range'_1.mp (List.mem_of_mem_filter ha)
    have hb' := List.mem_range'_1.mp (List.mem_of_mem_filter hb)
    rw [toNat3_fmt3 a (by omega), toNat3_fmt3 b (by omega)]
    exact hab
  refine ⟨hform, emitDocsBytes_names d τp τa, ?_, ?_, hsorted, ?_⟩
  · exact hsorted.imp (fun {p q} hlt heq => absurd (heq ▸ hlt) (lt_irrefl _))
  · rw [hform, List.length_map]
    calc ((List.range' 1 999).filter _).length
        ≤ (List.range' 1 999).length := List.length_filter_le _ _
      _ = 999 := by rw [List.length_range']
  · intro n hn hnone
    constructor
    · exact List.mem_map.mpr ⟨n, hn, by simp [emitEventFor, hnone]⟩
    · rw [hform]
      intro hmem
      obtain ⟨m, hmf, heq⟩ := List.mem_map.mp hmem
      have hm := List.mem_filter.mp hmf
      have hm' := List.mem_range'_1.mp hm.1
      have hn' := List.mem_range'_1.mp hn
      have hmn : m = n := by
        have h1 := toNat3_fmt3 m (by omega)
        have h2 := toNat3_fmt3 n (by omega)
        rw [heq, h2] at h1
        omega
      rw [hmn, hnone] at hm
      simp at hm

/-- Witness for C9: the absent prefix 005 of the empty dataset is
reported empty and gets no document. -/
theorem C9_emission_witness :
    (5 ∈ List.range' 1 999 ∧ alistLookup ([] : Dataset) (fmt3 5) = none) ∧
    (EmitEvent.reportedEmpty (fmt3 5) ∈ emitEvents [] ∧
     fmt3 5 ∉ writtenNames (emitEvents [])) :=
  ⟨⟨by decide, by decide⟩,
   (C9_emission [] (fun l => l) (fun l => l)).2.2.2.2.2 5 (by decide) (by decide)⟩

/-- C10: a row whose (quote-stripped) postal code starts with `000` is
stored in the dataset under prefix `000`, but the emission loop, which
only visits 001 through 999, never produces an event — neither a written
document nor an empty report — for prefix `000`; the group is silently
dropped. -/
theorem C10_zero_prefix_dropped (t : CSVType) (d : Dataset) (line : List Char)
    (fields : List Char × List Char × List Char × List Char × List Char × List Char)
    (d' : Dataset)
    (h1 : normalizeRow t line = some fields)
    (h2 : fields.1.take 3 = "000".toList)
    (h3 : processLine t d line = some d') :
    (alistLookup d' "000".toList).isSome ∧
    (∀ (d2 : Dataset) (e : EmitEvent), e ∈ emitEvents d2 → eventPfx e ≠ "000".toList) := by
  constructor
  · simp only [processLine, h1, Option.some_bind] at h3
    obtain ⟨zip, pref_, munic_, town, house, jig⟩ := fields
    simp only [applyRow] at h3
    have htake : (zipSplit zip).1 = "000".toList := h2
    have hlen : ¬zip.length < 3 := by
      intro hlt
      have hlen3 := congrArg List.length h2
      simp only [List.length_take] at hlen3
      simp at hlen3
      omega
    rw [if_neg hlen] at h3
    cases hl : alistLookup d (zipSplit zip).1 with
    | some g =>
      rw [hl] at h3
      injection h3 with h3
      subst h3
      rw [← htake]
      exact alistLookup_isSome_update d (zipSplit zip).1 _ g hl
    | none =>
      rw [hl] at h3
      injection h3 with h3
      subst h3
      rw [← htake]
      rw [alistLookup_append_self d (zipSplit zip).1 _ hl]
      rfl
  · intro d2 e he hpfx
    obtain ⟨n, hn, hevent⟩ := List.mem_map.mp he
    have hn' := List.mem_range'_1.mp hn
    have hp : eventPfx e = fmt3 n := by
      rw [← hevent]
      unfold emitEventFor
      cases alistLookup d2 (fmt3 n) <;> rfl
    rw [hp] at hpfx
    have hround := toNat3_fmt3 n (by omega)
    rw [hpfx] at hround
    have h000 : toNat3 "000".toList = 0 := by decide
    omega

/-- Witness for C10 at a concrete full-registry row with postal code
`0001234`. -/
theorem C10_zero_prefix_dropped_witness :
    (normalizeRow CSVType.CsvtKenAll "a,b,0001234,d,e,f,P,M,T".toList
       = some ((normalizeRow CSVType.CsvtKenAll
           "a,b,0001234,d,e,f,P,M,T".toList).getD ([], [], [], [], [], []) ) ∧
     ((normalizeRow CSVType.CsvtKenAll
         "a,b,0001234,d,e,f,P,M,T".toList).getD ([], [], [], [], [], [])).1.take 3
       = "000".toList ∧
     processLine CSVType.CsvtKenAll [] "a,b,0001234,d,e,f,P,M,T".toList
       = some ((processLine CSVType.CsvtKenAll []
           "a,b,0001234,d,e,f,P,M,T".toList).getD [])) ∧
    (alistLookup ((processLine CSVType.CsvtKenAll []
        "a,b,0001234,d,e,f,P,M,T".toList).getD []) "000".toList).isSome :=
  ⟨⟨by rfl, by rfl, by rfl⟩,
   (C10_zero_prefix_dropped CSVType.CsvtKenAll [] "a,b,0001234,d,e,f,P,M,T".toList
     ((normalizeRow CSVType.CsvtKenAll
        "a,b,0001234,d,e,f,P,M,T".toList).getD ([], [], [], [], [], []))
     ((processLine CSVType.CsvtKenAll [] "a,b,0001234,d,e,f,P,M,T".toList).getD [])
     (by rfl) (by rfl) (by rfl)).1⟩

end ZipToJson
